import Mathlib

/-!
Verification of the anywhere-mesh ingress core against its specification.

The Rust sources are shallowly embedded: strings are `List Char`, byte
vectors are `List Nat` with elements below 256, `Uuid` is `Nat`,
`std::collections::HashMap` is an association list with replacing insert,
wall-clock instants and durations are `Nat` milliseconds, and the tokio
one-shot / mpsc channels of the router are reflected by explicit event
traces and outcome oracles.  Every definition is translated from the
corresponding Rust item (named in its doc comment); `globMatch` alone is
written from the specification text, to compare the implemented ARN
matcher against the specified glob semantics.
-/

namespace Mesh

/-- Model of `uuid::Uuid`: an abstract identifier. -/
abbrev Uuid := Nat

/-! ### Association-list model of `HashMap` -/

/-- `HashMap::get`, first entry with the given key. -/
def mlookup {β : Type} : List (Uuid × β) → Uuid → Option β
  | [], _ => none
  | (k, v) :: rest, key => if k = key then some v else mlookup rest key

/-- `HashMap::remove` (drops every entry with the key; on maps with
distinct keys this is ordinary removal). -/
def merase {β : Type} : List (Uuid × β) → Uuid → List (Uuid × β)
  | [], _ => []
  | (k, v) :: rest, key => if k = key then merase rest key else (k, v) :: merase rest key

/-- `HashMap::insert`: the new binding replaces any previous one. -/
def minsert {β : Type} (m : List (Uuid × β)) (key : Uuid) (v : β) : List (Uuid × β) :=
  (key, v) :: merase m key

/-- A map whose keys are pairwise distinct, as a `HashMap` always is. -/
def NodupKeys {β : Type} (m : List (Uuid × β)) : Prop :=
  (m.map Prod.fst).Nodup

theorem mlookup_minsert_self {β : Type} (m : List (Uuid × β)) (k : Uuid) (v : β) :
    mlookup (minsert m k v) k = some v := by
  simp [minsert, mlookup]

theorem mlookup_merase_self {β : Type} (m : List (Uuid × β)) (k : Uuid) :
    mlookup (merase m k) k = none := by
  induction m with
  | nil => simp [merase, mlookup]
  | cons p rest ih =>
    obtain ⟨a, b⟩ := p
    by_cases h : a = k
    · simpa [merase, h] using ih
    · simp [merase, mlookup, h, ih]

theorem mlookup_merase_ne {β : Type} (m : List (Uuid × β)) (k key : Uuid) (h : key ≠ k) :
    mlookup (merase m k) key = mlookup m key := by
  induction m with
  | nil => simp [merase]
  | cons p rest ih =>
    obtain ⟨a, b⟩ := p
    by_cases ha : a = k
    · subst ha
      simp [merase, mlookup, Ne.symm h, ih]
    · by_cases hk : a = key
      · subst hk
        simp [merase, mlookup, ha]
      · simp [merase, mlookup, ha, hk, ih]

theorem mlookup_minsert_ne {β : Type} (m : List (Uuid × β)) (k key : Uuid) (v : β)
    (h : key ≠ k) : mlookup (minsert m k v) key = mlookup m key := by
  simp [minsert, mlookup, Ne.symm h, mlookup_merase_ne m k key h]

theorem merase_of_mlookup_none {β : Type} (m : List (Uuid × β)) (k : Uuid)
    (h : mlookup m k = none) : merase m k = m := by
  induction m with
  | nil => simp [merase]
  | cons p rest ih =>
    obtain ⟨a, b⟩ := p
    by_cases ha : a = k
    · simp [mlookup, ha] at h
    · simp [mlookup, ha] at h
      simp [merase, ha, ih h]

theorem merase_eq_filter {β : Type} (m : List (Uuid × β)) (k : Uuid) :
    merase m k = m.filter (fun p => !(p.1 == k)) := by
  induction m with
  | nil => rfl
  | cons p rest ih =>
    obtain ⟨a, b⟩ := p
    by_cases ha : a = k
    · simp [merase, ha, List.filter, ih]
    · have hb : (a == k) = false := by simp [ha]
      simp [merase, ha, List.filter, ih, hb]

theorem not_mem_keys_merase {β : Type} (m : List (Uuid × β)) (k : Uuid) :
    k ∉ (merase m k).map Prod.fst := by
  rw [merase_eq_filter]
  intro hmem
  rcases List.mem_map.1 hmem with ⟨p, hp, hfst⟩
  rcases List.mem_filter.1 hp with ⟨_, hq⟩
  simp [hfst] at hq

theorem nodupKeys_merase {β : Type} (m : List (Uuid × β)) (k : Uuid)
    (h : NodupKeys m) : NodupKeys (merase m k) := by
  rw [NodupKeys, merase_eq_filter]
  exact List.Nodup.sublist ((List.filter_sublist m).map Prod.fst) h

theorem nodupKeys_minsert {β : Type} (m : List (Uuid × β)) (k : Uuid) (v : β)
    (h : NodupKeys m) : NodupKeys (minsert m k v) := by
  simp only [NodupKeys, minsert, List.map_cons, List.nodup_cons]
  exact ⟨not_mem_keys_merase m k, nodupKeys_merase m k h⟩

/-- `List.find?` returns the head of the filtered list (used to state
"first in iteration order"). -/
theorem find?_eq_head?_filter {α : Type} (p : α → Bool) (l : List α) :
    l.find? p = (l.filter p).head? := by
  induction l with
  | nil => rfl
  | cons x rest ih =>
    by_cases h : p x
    · rw [List.find?_cons_of_pos _ h, List.filter_cons_of_pos h]
      rfl
    · simp only [Bool.not_eq_true] at h
      rw [List.find?_cons_of_neg _ (by simp [h]), List.filter_cons_of_neg (by simp [h]), ih]

/-! ### Data model (`src/mesh/src/common/types.rs`) -/

/-- `ServiceRegistration` from `common/types.rs`. -/
structure ServiceRegistration where
  id : Uuid
  host : List Char
  port : Nat
  service_name : List Char
  cluster_name : List Char
  task_arn : List Char
  attributes : List (List Char × List Char)
  health_check_path : Option (List Char)
  deriving DecidableEq

/-- `ConnectionInfo` from `common/types.rs`; `last_heartbeat` is a
wall-clock time in milliseconds. -/
structure ConnectionInfo where
  id : Uuid
  service_name : List Char
  host : List Char
  port : Nat
  last_heartbeat : Nat
  attributes : List (List Char × List Char)
  deriving DecidableEq

/-- `ProxyRequest` from `common/types.rs` (body: bytes). -/
structure ProxyRequest where
  id : Uuid
  method : List Char
  path : List Char
  headers : List (List Char × List Char)
  body : Option (List Nat)
  target_host : List Char
  deriving DecidableEq

/-- `ProxyResponse` from `common/types.rs`; the body is kept as the text
it is built from (`message.as_bytes().to_vec()` in the source). -/
structure ProxyResponse where
  id : Uuid
  status_code : Nat
  headers : List (List Char × List Char)
  body : Option (List Char)
  deriving DecidableEq

/-! ### Host routing (`src/mesh/src/common/routing.rs`) -/

/-- The wildcard arm of `routing::match_host_to_service`: the
registration host starts with `*` and the target host ends with the tail
after the `*`. -/
def hostWildcardMatches (host regHost : List Char) : Bool :=
  match regHost with
  | c :: tail => if c = '*' then tail.isSuffixOf host else false
  | [] => false

/-- `routing::match_host_to_service`: first an exact host match, then the
first registration whose host matches by wildcard. -/
def matchHostToService (host : List Char) (registrations : List ServiceRegistration) :
    Option ServiceRegistration :=
  match registrations.find? (fun r => r.host == host) with
  | some reg => some reg
  | none => registrations.find? (fun r => hostWildcardMatches host r.host)

/-- The health test inlined in `routing::select_healthy_instance`:
the connection exists, its heartbeat is not in the future (the
`SystemTime::elapsed` guard), and the elapsed whole seconds are below 60. -/
def connectionIsHealthy (connections : List (Uuid × ConnectionInfo)) (now : Nat)
    (reg : ServiceRegistration) : Bool :=
  match mlookup connections reg.id with
  | some conn =>
    if conn.last_heartbeat ≤ now then decide ((now - conn.last_heartbeat) / 1000 < 60)
    else false
  | none => false

/-- `routing::select_healthy_instance`. -/
def selectHealthyInstance (registrations : List ServiceRegistration)
    (connections : List (Uuid × ConnectionInfo)) (now : Nat) : Option ServiceRegistration :=
  registrations.find? (connectionIsHealthy connections now)

/-- A registration whose routing host is the wildcard `*.example.com`. -/
def starExampleReg : ServiceRegistration where
  id := 0
  host := ("*.example.com").toList
  port := 8080
  service_name := ("svc").toList
  cluster_name := ("cluster").toList
  task_arn := ("arn").toList
  attributes := []
  health_check_path := none

/-- Claim C5: `match_host_to_service` prefers an exact host match over any
wildcard; otherwise it returns the first registration whose host begins
with `*` and whose literal tail is a suffix of the target host; in
particular `*.example.com` matches `a.example.com` but not `example.com`. -/
theorem match_host_resolution :
    (∀ (host : List Char) (regs : List ServiceRegistration),
      ((regs.find? (fun r => r.host == host)).isSome →
        matchHostToService host regs = regs.find? (fun r => r.host == host))
      ∧ (regs.find? (fun r => r.host == host) = none →
        matchHostToService host regs = regs.find? (fun r => hostWildcardMatches host r.host))
      ∧ (∀ r : ServiceRegistration,
        hostWildcardMatches host r.host = true ↔
          ∃ tail, r.host = '*' :: tail ∧ tail <:+ host))
    ∧ matchHostToService (("a.example.com").toList) [starExampleReg] = some starExampleReg
    ∧ matchHostToService (("example.com").toList) [starExampleReg] = none := by
  refine ⟨fun host regs => ⟨?_, ?_, ?_⟩, by decide, by decide⟩
  · intro h
    rcases hfind : regs.find? (fun r => r.host == host) with _ | reg
    · rw [hfind] at h
      simp at h
    · simp [matchHostToService, hfind]
  · intro h
    simp [matchHostToService, h]
  · intro r
    rcases hh : r.host with _ | ⟨c, tail⟩
    · simp [hostWildcardMatches, hh]
    · by_cases hc : c = '*'
      · subst hc
        simp only [hostWildcardMatches, hh, if_pos rfl]
        constructor
        · intro hsuf
          exact ⟨tail, rfl, by simpa using List.isSuffixOf_iff_suffix.1 hsuf⟩
        · rintro ⟨t, ht, hsuf⟩
          cases ht
          exact List.isSuffixOf_iff_suffix.2 hsuf
      · simp only [hostWildcardMatches, hh, if_neg hc]
        constructor
        · intro hfalse
          cases hfalse
        · rintro ⟨t, ht, _⟩
          cases ht
          exact absurd rfl hc

/-- Witness for C5: the exact-match branch is absent on the concrete
wildcard registration, so resolution falls through to the wildcard scan. -/
theorem match_host_resolution_witness :
    matchHostToService (("a.example.com").toList) [starExampleReg]
      = [starExampleReg].find? (fun r => hostWildcardMatches (("a.example.com").toList) r.host) :=
  ((match_host_resolution.1 (("a.example.com").toList) [starExampleReg]).2.1 (by decide))

/-- Claim C6: `select_healthy_instance` returns the first registration in
iteration order whose connection heartbeat is under 60 seconds old; a
candidate is healthy iff its connection exists and
`now - last_heartbeat < 60s` (durations in milliseconds). -/
theorem select_healthy_spec :
    ∀ (regs : List ServiceRegistration) (conns : List (Uuid × ConnectionInfo)) (now : Nat),
      selectHealthyInstance regs conns now = (regs.filter (connectionIsHealthy conns now)).head?
      ∧ ∀ reg, connectionIsHealthy conns now reg = true ↔
          ∃ c, mlookup conns reg.id = some c ∧ c.last_heartbeat ≤ now
            ∧ now - c.last_heartbeat < 60000 := by
  intro regs conns now
  constructor
  · exact find?_eq_head?_filter _ _
  · intro reg
    rcases hl : mlookup conns reg.id with _ | c
    · simp [connectionIsHealthy, hl]
    · by_cases hle : c.last_heartbeat ≤ now
      · simp only [connectionIsHealthy, hl, if_pos hle, decide_eq_true_eq]
        constructor
        · intro hdiv
          exact ⟨c, rfl, hle, by omega⟩
        · rintro ⟨c2, hc2, _, hlt⟩
          cases hc2
          omega
      · simp only [connectionIsHealthy, hl, if_neg hle]
        constructor
        · intro hfalse
          cases hfalse
        · rintro ⟨c2, hc2, hle2, _⟩
          cases hc2
          exact absurd hle2 hle

/-- A connection whose last heartbeat is at time `t` (milliseconds). -/
def heartbeatConn (t : Nat) : ConnectionInfo where
  id := 0
  service_name := []
  host := []
  port := 80
  last_heartbeat := t
  attributes := []

/-- Witness for C6: a connection heart-beaten 59.999 seconds ago is still
healthy; the characterization is applied at that concrete input. -/
theorem select_healthy_spec_witness :
    connectionIsHealthy [(0, heartbeatConn 1000)] 60999 starExampleReg = true :=
  ((select_healthy_spec [] [(0, heartbeatConn 1000)] 60999).2 starExampleReg).2
    ⟨heartbeatConn 1000, by simp [starExampleReg, mlookup], by simp [heartbeatConn],
      by simp [heartbeatConn]⟩

/-! ### Registry (`src/mesh/src/server/registry.rs`) -/

/-- The state behind `DefaultRegistry`: three in-memory maps.  Message
senders are abstract handles. -/
structure RegistryState where
  connections : List (Uuid × ConnectionInfo)
  registrations : List (Uuid × ServiceRegistration)
  connectionSenders : List (Uuid × Nat)
  deriving DecidableEq

/-- `DefaultRegistry::new`. -/
def emptyRegistry : RegistryState where
  connections := []
  registrations := []
  connectionSenders := []

/-- `DefaultRegistry::register_connection`. -/
def registerConnection (st : RegistryState) (connectionId : Uuid) (sender : Nat) :
    RegistryState :=
  { st with connectionSenders := minsert st.connectionSenders connectionId sender }

/-- `DefaultRegistry::remove_connection`: remove the id from all three maps. -/
def removeConnection (st : RegistryState) (connectionId : Uuid) : RegistryState where
  connections := merase st.connections connectionId
  registrations := merase st.registrations connectionId
  connectionSenders := merase st.connectionSenders connectionId

/-- `DefaultRegistry::register_service`: refresh the connection info and
store the registration under the connection id with `reg.id` overwritten
to the connection id. -/
def registerService (st : RegistryState) (connectionId : Uuid)
    (registration : ServiceRegistration) (now : Nat) : RegistryState :=
  { st with
    connections := minsert st.connections connectionId { id := connectionId, service_name := registration.service_name, host := registration.host, port := registration.port, last_heartbeat := now, attributes := registration.attributes }
    registrations := minsert st.registrations connectionId { registration with id := connectionId } }

/-- `DefaultRegistry::deregister_service`. -/
def deregisterService (st : RegistryState) (serviceId : Uuid) : RegistryState :=
  { st with
    registrations := merase st.registrations serviceId
    connections := merase st.connections serviceId }

/-- `DefaultRegistry::update_heartbeat`; for an unknown connection the
maps are left unchanged (the call returns `RegistryNotFound`). -/
def updateHeartbeat (st : RegistryState) (connectionId : Uuid) (now : Nat) : RegistryState :=
  match mlookup st.connections connectionId with
  | some conn =>
    { st with connections := minsert st.connections connectionId { conn with last_heartbeat := now } }
  | none => st

/-- One call against the registry interface. -/
inductive RegistryOp where
  | connect (connectionId : Uuid) (sender : Nat)
  | disconnect (connectionId : Uuid)
  | register (connectionId : Uuid) (registration : ServiceRegistration) (now : Nat)
  | deregister (serviceId : Uuid)
  | heartbeat (connectionId : Uuid) (now : Nat)

/-- Interpret one registry call on the state. -/
def applyRegistryOp (st : RegistryState) : RegistryOp → RegistryState
  | .connect c s => registerConnection st c s
  | .disconnect c => removeConnection st c
  | .register c r now => registerService st c r now
  | .deregister s => deregisterService st s
  | .heartbeat c now => updateHeartbeat st c now

/-- The registry state reached by a sequence of calls from a fresh registry. -/
def runRegistry (ops : List RegistryOp) : RegistryState :=
  ops.foldl applyRegistryOp emptyRegistry

theorem mem_merase {β : Type} {m : List (Uuid × β)} {k : Uuid} {p : Uuid × β}
    (h : p ∈ merase m k) : p ∈ m ∧ p.1 ≠ k := by
  rw [merase_eq_filter] at h
  rcases List.mem_filter.1 h with ⟨hm, hq⟩
  refine ⟨hm, ?_⟩
  intro he
  simp [he] at hq

/-- The registration-table invariant: every stored registration's id is
its key, and keys are distinct. -/
def RegOwnerInv (st : RegistryState) : Prop :=
  (∀ p ∈ st.registrations, p.2.id = p.1) ∧ NodupKeys st.registrations

theorem regOwnerInv_apply (st : RegistryState) (op : RegistryOp) (h : RegOwnerInv st) :
    RegOwnerInv (applyRegistryOp st op) := by
  obtain ⟨howner, hnodup⟩ := h
  cases op with
  | connect c s => exact ⟨howner, hnodup⟩
  | disconnect c =>
    refine ⟨fun p hp => howner p (mem_merase hp).1, nodupKeys_merase _ _ hnodup⟩
  | register c r now =>
    constructor
    · intro p hp
      simp only [applyRegistryOp, registerService, minsert] at hp
      rcases List.mem_cons.1 hp with hp | hp
      · subst hp
        rfl
      · exact howner p (mem_merase hp).1
    · exact nodupKeys_minsert _ _ _ hnodup
  | deregister s =>
    refine ⟨fun p hp => howner p (mem_merase hp).1, nodupKeys_merase _ _ hnodup⟩
  | heartbeat c now =>
    rcases hl : mlookup st.connections c with _ | conn
    · simpa [updateHeartbeat, applyRegistryOp, hl] using ⟨howner, hnodup⟩
    · simpa [updateHeartbeat, applyRegistryOp, hl] using ⟨howner, hnodup⟩

theorem regOwnerInv_run (ops : List RegistryOp) : RegOwnerInv (runRegistry ops) := by
  rw [runRegistry]
  have hstep : ∀ (st : RegistryState), RegOwnerInv st →
      RegOwnerInv (ops.foldl applyRegistryOp st) := by
    induction ops with
    | nil => exact fun st h => h
    | cons op rest ih =>
      exact fun st h => ih (applyRegistryOp st op) (regOwnerInv_apply st op h)
  refine hstep emptyRegistry ⟨?_, ?_⟩
  · intro p hp
    cases hp
  · exact List.nodup_nil

theorem countKey_le_one {β : Type} (m : List (Uuid × β)) (c : Uuid) (h : NodupKeys m) :
    (m.filter (fun p => p.1 == c)).length ≤ 1 := by
  induction m with
  | nil => simp
  | cons p rest ih =>
    obtain ⟨a, b⟩ := p
    simp only [NodupKeys, List.map_cons, List.nodup_cons] at h
    by_cases ha : a = c
    · subst ha
      have : rest.filter (fun p => p.1 == a) = [] := by
        refine List.filter_eq_nil_iff.2 fun q hq => ?_
        have : q.1 ∈ rest.map Prod.fst := List.mem_map.2 ⟨q, hq, rfl⟩
        intro hbe
        exact h.1 (by simpa [beq_iff_eq.1 hbe] using this)
      simp [List.filter, this]
    · have hbe : (a == c) = false := by simp [ha]
      simpa [List.filter, hbe] using ih h.2

/-- Claim C7: `register_service` keys the registration table by the
owning connection id and normalizes the stored registration's id to it;
hence after any call sequence a connection owns at most one registration,
and a later registration for the same connection overwrites the earlier. -/
theorem register_service_owner :
    (∀ ops : List RegistryOp,
      (∀ p ∈ (runRegistry ops).registrations, p.2.id = p.1)
      ∧ (∀ c : Uuid,
          ((runRegistry ops).registrations.filter (fun p => p.2.id == c)).length ≤ 1))
    ∧ (∀ (st : RegistryState) (c : Uuid) (reg : ServiceRegistration) (now : Nat),
        mlookup (registerService st c reg now).registrations c
          = some { reg with id := c }) := by
  constructor
  · intro ops
    obtain ⟨howner, hnodup⟩ := regOwnerInv_run ops
    refine ⟨howner, fun c => ?_⟩
    have hcongr : (runRegistry ops).registrations.filter (fun p => p.2.id == c)
        = (runRegistry ops).registrations.filter (fun p => p.1 == c) := by
      refine List.filter_congr fun p hp => ?_
      rw [howner p hp]
    rw [hcongr]
    exact countKey_le_one _ c hnodup
  · intro st c reg now
    exact mlookup_minsert_self _ _ _

/-- Witness for C7: two registrations on connection 3; the stored entry
carries id 3 and the second overwrites the first. -/
theorem register_service_owner_witness :
    (((3 : Uuid), { starExampleReg with id := 3 }) : Uuid × ServiceRegistration).2.id = 3
    ∧ mlookup (registerService (registerService emptyRegistry 3 { starExampleReg with port := 1 } 5)
        3 starExampleReg 6).registrations 3 = some { starExampleReg with id := 3 } := by
  constructor
  · exact (register_service_owner.1 [RegistryOp.register 3 starExampleReg 5]).1
      ((3 : Uuid), { starExampleReg with id := 3 }) (by decide)
  · exact register_service_owner.2 _ 3 starExampleReg 6

/-- Claim C8: `remove_connection` purges the connection id from all three
maps; every registration keyed or owned by it is gone on return. -/
theorem remove_connection_purges :
    ∀ (st : RegistryState) (c : Uuid),
      mlookup (removeConnection st c).connections c = none
      ∧ mlookup (removeConnection st c).registrations c = none
      ∧ mlookup (removeConnection st c).connectionSenders c = none
      ∧ (∀ p ∈ (removeConnection st c).registrations, p.1 ≠ c)
      ∧ ((∀ p ∈ st.registrations, p.2.id = p.1) →
          ∀ p ∈ (removeConnection st c).registrations, p.2.id ≠ c) := by
  intro st c
  refine ⟨mlookup_merase_self _ _, mlookup_merase_self _ _, mlookup_merase_self _ _,
    fun p hp => (mem_merase hp).2, fun howner p hp => ?_⟩
  rw [howner p (mem_merase hp).1]
  exact (mem_merase hp).2

/-- Witness for C8: removing connection 5 leaves no trace of it, while a
registration owned by connection 6 is untouched and its owner is not 5. -/
theorem remove_connection_purges_witness :
    mlookup (removeConnection (registerService emptyRegistry 5 starExampleReg 0) 5).registrations 5
      = none
    ∧ (((6 : Uuid), { starExampleReg with id := 6 }) : Uuid × ServiceRegistration).2.id ≠ 5 := by
  constructor
  · exact (remove_connection_purges (registerService emptyRegistry 5 starExampleReg 0) 5).2.1
  · exact (remove_connection_purges
      (registerService (registerService emptyRegistry 5 starExampleReg 0) 6 starExampleReg 0)
      5).2.2.2.2 (by decide) ((6 : Uuid), { starExampleReg with id := 6 }) (by decide)

/-! ### Router (`src/mesh/src/server/router.rs`) -/

/-- The error taxonomy of `server/error.rs` (payload-free shape, ids kept). -/
inductive IngressError where
  | badRequest
  | timeout (id : Uuid)
  | registryNotFound (id : Uuid)
  | sendFailed
  | serde
  | internal
  deriving DecidableEq

/-- `DefaultRouter::create_error_response`. -/
def createErrorResponse (requestId : Uuid) (statusCode : Nat) (message : List Char) :
    ProxyResponse where
  id := requestId
  status_code := statusCode
  headers := []
  body := some message

/-- Result of `DefaultRouter::handle_response`: the updated pending table,
the one-shot slot completed with the response (if any), and the returned
`IngressResult`. -/
structure HandleResponseOut where
  pending : List (Uuid × Nat)
  delivered : Option (Nat × ProxyResponse)
  result : Except IngressError Unit

/-- `DefaultRouter::handle_response`: pop the pending entry for the
response id and complete its slot; an unknown id leaves the table alone,
logs, and returns `registry_not_found`. -/
def handleResponse (pending : List (Uuid × Nat)) (response : ProxyResponse) :
    HandleResponseOut :=
  match mlookup pending response.id with
  | some slot =>
    { pending := merase pending response.id
      delivered := some (slot, response)
      result := Except.ok () }
  | none =>
    { pending := pending
      delivered := none
      result := Except.error (IngressError.registryNotFound response.id) }

/-- A probe response used in concrete instantiations. -/
def probeResponse (requestId : Uuid) : ProxyResponse where
  id := requestId
  status_code := 200
  headers := []
  body := none

/-- Counterexample to C1 as stated: for a response whose id is not in the
pending table, `handle_response` does return an error to its caller
(`IngressError::registry_not_found`), as the function's own unit test
`test_handle_response_unknown_request` also asserts. -/
theorem handle_response_unknown_is_error :
    (handleResponse [] (probeResponse 5)).result
      = Except.error (IngressError.registryNotFound 5)
    ∧ (handleResponse [] (probeResponse 5)).pending = []
    ∧ (handleResponse [] (probeResponse 5)).delivered = none := by
  exact ⟨rfl, rfl, rfl⟩

/-- Claim C1 (amended): `handle_response` removes the pending entry for
the response id and completes its one-shot slot, returning ok; for an id
that is not pending, the response is discarded (no slot completed, table
unchanged) and the call returns a `registry_not_found` error to the
caller. -/
theorem handle_response_spec :
    ∀ (pending : List (Uuid × Nat)) (response : ProxyResponse),
      (∀ slot, mlookup pending response.id = some slot →
        handleResponse pending response
          = { pending := merase pending response.id
              delivered := some (slot, response)
              result := Except.ok () })
      ∧ (mlookup pending response.id = none →
        handleResponse pending response
          = { pending := pending
              delivered := none
              result := Except.error (IngressError.registryNotFound response.id) }) := by
  intro pending response
  constructor
  · intro slot hslot
    simp [handleResponse, hslot]
  · intro hnone
    simp [handleResponse, hnone]

/-- Witness for C1: on a table holding exactly request 9 in slot 4, the
entry is removed, the slot is completed, and the call returns ok. -/
theorem handle_response_spec_witness :
    handleResponse [(9, 4)] (probeResponse 9)
      = { pending := []
          delivered := some (4, probeResponse 9)
          result := Except.ok () } :=
  (handle_response_spec [(9, 4)] (probeResponse 9)).1 4 (by decide)

/-! ### Pending-request lifecycle
(`DefaultRouter::forward_request`, `wait_for_response`, `handle_response`).
The interaction of the forwarding task and the response intake with the
`pending_requests` map is reflected as the trace of map operations each
code path performs. -/

/-- One primitive step against the `pending_requests` map (or the forward
channel / one-shot slot beside it). -/
inductive PendingEvent where
  | insertEntry (id slot : Nat)
  | sendForward (id : Nat)
  | removeEntry (id : Nat)
  | completeSlot (slot : Nat)
  deriving DecidableEq

/-- The pending-map effect of one event (`sendForward` and `completeSlot`
do not touch the map). -/
def applyPendingEvent (pending : List (Uuid × Nat)) : PendingEvent → List (Uuid × Nat)
  | .insertEntry id slot => minsert pending id slot
  | .removeEntry id => merase pending id
  | _ => pending

/-- The four ways one forwarded request can end. `noSenderFound` and
`sendFailed` are the two send-failure arms of `forward_request`;
`deadlineElapsed` is the timeout arm of `wait_for_response`;
`responseDelivered` is removal by `handle_response`.  (The remaining
`wait_for_response` arm, a closed reply channel, cannot fire while the
entry — which owns the channel's send half — is still in the table.) -/
inductive RequestPath where
  | responseDelivered
  | deadlineElapsed
  | sendFailed
  | noSenderFound
  deriving DecidableEq

/-- The trace of map operations along each code path of
`forward_request` + `wait_for_response` / `handle_response`. -/
def requestEvents (id slot : Nat) : RequestPath → List PendingEvent
  | .responseDelivered => [.insertEntry id slot, .sendForward id, .removeEntry id, .completeSlot slot]
  | .deadlineElapsed => [.insertEntry id slot, .sendForward id, .removeEntry id]
  | .sendFailed => [.insertEntry id slot, .sendForward id, .removeEntry id]
  | .noSenderFound => [.insertEntry id slot, .removeEntry id]

/-- Whether an event removes the pending entry of `id`. -/
def removesEntryOf (id : Nat) : PendingEvent → Bool
  | .removeEntry j => j == id
  | _ => false

/-- Claim C3: the pending entry is installed before the forward send; on
every path it is removed exactly once (response, timeout, or send
failure), so for a fresh request id the table returns to its prior state
(no leak), and distinct keys stay distinct (at most one entry per id). -/
theorem pending_lifecycle :
    ∀ (pending : List (Uuid × Nat)) (id slot : Nat) (path : RequestPath),
      (requestEvents id slot path).head? = some (.insertEntry id slot)
      ∧ ((requestEvents id slot path).filter (removesEntryOf id)).length = 1
      ∧ mlookup ((requestEvents id slot path).foldl applyPendingEvent pending) id = none
      ∧ (mlookup pending id = none →
          (requestEvents id slot path).foldl applyPendingEvent pending = pending)
      ∧ (NodupKeys pending →
          NodupKeys ((requestEvents id slot path).foldl applyPendingEvent pending)) := by
  intro pending id slot path
  have hfold : (requestEvents id slot path).foldl applyPendingEvent pending
      = merase (minsert pending id slot) id := by
    cases path <;> rfl
  have hmerase2 : merase (merase pending id) id = merase pending id := by
    simp [merase_eq_filter, List.filter_filter]
  have hmm : merase (minsert pending id slot) id = merase pending id := by
    simp [minsert, merase, hmerase2]
  cases path with
  | responseDelivered =>
    refine ⟨rfl, by simp [requestEvents, removesEntryOf, List.filter], ?_, ?_, ?_⟩
    · rw [hfold, hmm]
      exact mlookup_merase_self _ _
    · intro hfresh
      rw [hfold, hmm]
      exact merase_of_mlookup_none _ _ hfresh
    · intro hnodup
      rw [hfold]
      exact nodupKeys_merase _ _ (nodupKeys_minsert _ _ _ hnodup)
  | deadlineElapsed =>
    refine ⟨rfl, by simp [requestEvents, removesEntryOf, List.filter], ?_, ?_, ?_⟩
    · rw [hfold, hmm]
      exact mlookup_merase_self _ _
    · intro hfresh
      rw [hfold, hmm]
      exact merase_of_mlookup_none _ _ hfresh
    · intro hnodup
      rw [hfold]
      exact nodupKeys_merase _ _ (nodupKeys_minsert _ _ _ hnodup)
  | sendFailed =>
    refine ⟨rfl, by simp [requestEvents, removesEntryOf, List.filter], ?_, ?_, ?_⟩
    · rw [hfold, hmm]
      exact mlookup_merase_self _ _
    · intro hfresh
      rw [hfold, hmm]
      exact merase_of_mlookup_none _ _ hfresh
    · intro hnodup
      rw [hfold]
      exact nodupKeys_merase _ _ (nodupKeys_minsert _ _ _ hnodup)
  | noSenderFound =>
    refine ⟨rfl, by simp [requestEvents, removesEntryOf, List.filter], ?_, ?_, ?_⟩
    · rw [hfold, hmm]
      exact mlookup_merase_self _ _
    · intro hfresh
      rw [hfold, hmm]
      exact merase_of_mlookup_none _ _ hfresh
    · intro hnodup
      rw [hfold]
      exact nodupKeys_merase _ _ (nodupKeys_minsert _ _ _ hnodup)

/-- Witness for C3: for fresh request id 1 on an empty table, the
timeout path restores the empty table. -/
theorem pending_lifecycle_witness :
    (requestEvents 1 2 RequestPath.deadlineElapsed).foldl applyPendingEvent [] = [] :=
  (pending_lifecycle [] 1 2 RequestPath.deadlineElapsed).2.2.2.1 rfl

/-! ### `DefaultRouter::route_request` -/

/-- `HostServiceCacheEntry` from `router.rs`; the timestamp is an
`Instant` in milliseconds. -/
structure HostServiceCacheEntry where
  services : List ServiceRegistration
  timestamp : Nat

/-- The filter inside `DefaultRouter::find_matching_services`: all
registration values whose host matches the target host. -/
def computeMatchingServices (targetHost : List Char)
    (registrations : List (Uuid × ServiceRegistration)) : List ServiceRegistration :=
  (registrations.map Prod.snd).filter (fun reg =>
    (matchHostToService targetHost [reg]).isSome)

/-- `DefaultRouter::find_matching_services` (cache TTL 30 s): a cache hit
within the TTL is returned as is; otherwise the list is recomputed from
the registration table. -/
def findMatchingServices (targetHost : List Char) (cache : Option HostServiceCacheEntry)
    (now : Nat) (registrations : List (Uuid × ServiceRegistration)) :
    List ServiceRegistration :=
  match cache with
  | some entry =>
    if now - entry.timestamp < 30000 then entry.services
    else computeMatchingServices targetHost registrations
  | none => computeMatchingServices targetHost registrations

/-- Outcome oracle for `forward_request`: the send either succeeds, finds
no connection sender, or fails. -/
inductive ForwardOutcome where
  | sent
  | noSenderFound
  | sendFailed
  deriving DecidableEq

/-- Outcome oracle for `wait_for_response`: the one-shot resolves with a
response, the deadline elapses, or the reply channel closes. -/
inductive AwaitOutcome where
  | delivered (response : ProxyResponse)
  | deadlineElapsed
  | channelClosed
  deriving DecidableEq

/-- `DefaultRouter::route_request` with `DefaultRegistry` (whose accessor
methods never fail): resolve candidates, pick a healthy one, forward and
await, mapping every failure to an error `ProxyResponse`. -/
def routeRequest (request : ProxyRequest) (registrations : List (Uuid × ServiceRegistration))
    (connections : List (Uuid × ConnectionInfo)) (cache : Option HostServiceCacheEntry)
    (now : Nat) (fw : ForwardOutcome) (aw : AwaitOutcome) : ProxyResponse :=
  let matching := findMatchingServices request.target_host cache now registrations
  if matching.isEmpty then
    createErrorResponse request.id 404 (("Service Not Found").toList)
  else
    match selectHealthyInstance matching connections now with
    | some _service =>
      match fw with
      | .sent =>
        match aw with
        | .delivered response => response
        | .deadlineElapsed => createErrorResponse request.id 504 (("Gateway Timeout").toList)
        | .channelClosed => createErrorResponse request.id 503 (("Service Unavailable").toList)
      | _ => createErrorResponse request.id 503 (("Service Unavailable").toList)
    | none => createErrorResponse request.id 503 (("No healthy service available").toList)

/-- Claim C4: on a cache miss, `route_request` totally maps every path to
a `ProxyResponse`: 404 when no registration matches the host, 503 when no
matching candidate is healthy or the forward send fails (or the reply
channel closes), 504 on timeout, and the agent's response when delivered;
every error carries only a short text message as its body. -/
theorem route_request_spec :
    ∀ (request : ProxyRequest) (registrations : List (Uuid × ServiceRegistration))
      (connections : List (Uuid × ConnectionInfo)) (now : Nat)
      (fw : ForwardOutcome) (aw : AwaitOutcome),
      (computeMatchingServices request.target_host registrations = [] →
        routeRequest request registrations connections none now fw aw
          = createErrorResponse request.id 404 (("Service Not Found").toList))
      ∧ (computeMatchingServices request.target_host registrations ≠ [] →
        selectHealthyInstance (computeMatchingServices request.target_host registrations)
            connections now = none →
        routeRequest request registrations connections none now fw aw
          = createErrorResponse request.id 503 (("No healthy service available").toList))
      ∧ (∀ service,
          selectHealthyInstance (computeMatchingServices request.target_host registrations)
              connections now = some service →
          (fw ≠ ForwardOutcome.sent →
            routeRequest request registrations connections none now fw aw
              = createErrorResponse request.id 503 (("Service Unavailable").toList))
          ∧ (fw = ForwardOutcome.sent → aw = AwaitOutcome.deadlineElapsed →
            routeRequest request registrations connections none now fw aw
              = createErrorResponse request.id 504 (("Gateway Timeout").toList))
          ∧ (fw = ForwardOutcome.sent → aw = AwaitOutcome.channelClosed →
            routeRequest request registrations connections none now fw aw
              = createErrorResponse request.id 503 (("Service Unavailable").toList))
          ∧ (∀ response, fw = ForwardOutcome.sent → aw = AwaitOutcome.delivered response →
            routeRequest request registrations connections none now fw aw = response)) := by
  intro request registrations connections now fw aw
  refine ⟨?_, ?_, ?_⟩
  · intro hempty
    simp [routeRequest, findMatchingServices, hempty]
  · intro hne hnone
    have hisEmpty : (computeMatchingServices request.target_host registrations).isEmpty = false := by
      simpa [List.isEmpty_iff] using hne
    simp [routeRequest, findMatchingServices, hisEmpty, hnone]
  · intro service hsome
    have hne : computeMatchingServices request.target_host registrations ≠ [] := by
      intro hempty
      rw [hempty] at hsome
      simp [selectHealthyInstance] at hsome
    have hisEmpty : (computeMatchingServices request.target_host registrations).isEmpty = false := by
      simpa [List.isEmpty_iff] using hne
    refine ⟨?_, ?_, ?_, ?_⟩
    · intro hfw
      cases fw with
      | sent => exact absurd rfl hfw
      | noSenderFound => simp [routeRequest, findMatchingServices, hisEmpty, hsome]
      | sendFailed => simp [routeRequest, findMatchingServices, hisEmpty, hsome]
    · intro hfw haw
      subst hfw
      subst haw
      simp [routeRequest, findMatchingServices, hisEmpty, hsome]
    · intro hfw haw
      subst hfw
      subst haw
      simp [routeRequest, findMatchingServices, hisEmpty, hsome]
    · intro response hfw haw
      subst hfw
      subst haw
      simp [routeRequest, findMatchingServices, hisEmpty, hsome]

/-- A probe request against the given target host. -/
def probeRequest (targetHost : List Char) : ProxyRequest where
  id := 1
  method := ("GET").toList
  path := ("/").toList
  headers := []
  body := none
  target_host := targetHost

/-- Witness for C4: a request for an unregistered host gets the 404
response with the short text body. -/
theorem route_request_spec_witness :
    routeRequest (probeRequest (("nope.local").toList)) [] [] none 0
      ForwardOutcome.sent AwaitOutcome.deadlineElapsed
      = createErrorResponse 1 404 (("Service Not Found").toList) :=
  (route_request_spec (probeRequest (("nope.local").toList)) [] [] 0
    ForwardOutcome.sent AwaitOutcome.deadlineElapsed).1 rfl

/-! ### Base64 (the `base64` crate's `general_purpose::STANDARD` engine)
used by `server/ws_proxy.rs` (encode) and `client/proxy/ws.rs` (decode). -/

/-- Standard-alphabet symbol for a sextet. -/
def b64Char (n : Nat) : Char :=
  if n < 26 then Char.ofNat (65 + n)
  else if n < 52 then Char.ofNat (97 + (n - 26))
  else if n < 62 then Char.ofNat (48 + (n - 52))
  else if n = 62 then '+'
  else '/'

/-- Sextet value of a standard-alphabet symbol. -/
def b64Index (c : Char) : Option Nat :=
  if 65 ≤ c.toNat ∧ c.toNat ≤ 90 then some (c.toNat - 65)
  else if 97 ≤ c.toNat ∧ c.toNat ≤ 122 then some (26 + (c.toNat - 97))
  else if 48 ≤ c.toNat ∧ c.toNat ≤ 57 then some (52 + (c.toNat - 48))
  else if c = '+' then some 62
  else if c = '/' then some 63
  else none

/-- `STANDARD.encode`: big-endian 24-bit groups, `=`-padded. -/
def b64Encode : List Nat → List Char
  | b0 :: b1 :: b2 :: rest =>
    b64Char ((b0 * 65536 + b1 * 256 + b2) / 262144 % 64)
      :: b64Char ((b0 * 65536 + b1 * 256 + b2) / 4096 % 64)
      :: b64Char ((b0 * 65536 + b1 * 256 + b2) / 64 % 64)
      :: b64Char ((b0 * 65536 + b1 * 256 + b2) % 64)
      :: b64Encode rest
  | [b0, b1] =>
    [b64Char ((b0 * 65536 + b1 * 256) / 262144 % 64),
      b64Char ((b0 * 65536 + b1 * 256) / 4096 % 64),
      b64Char ((b0 * 65536 + b1 * 256) / 64 % 64), '=']
  | [b0] =>
    [b64Char (b0 * 65536 / 262144 % 64), b64Char (b0 * 65536 / 4096 % 64), '=', '=']
  | [] => []

/-- `STANDARD.decode`: four-symbol groups, padding only in the final
group, trailing bits must be zero. -/
def b64Decode : List Char → Option (List Nat)
  | [] => some []
  | c0 :: c1 :: c2 :: c3 :: rest =>
    if rest.isEmpty && (c3 == '=') then
      if c2 == '=' then
        match b64Index c0, b64Index c1 with
        | some i0, some i1 => if i1 % 16 = 0 then some [i0 * 4 + i1 / 16] else none
        | _, _ => none
      else
        match b64Index c0, b64Index c1, b64Index c2 with
        | some i0, some i1, some i2 =>
          if i2 % 4 = 0 then some [i0 * 4 + i1 / 16, i1 % 16 * 16 + i2 / 4] else none
        | _, _, _ => none
    else
      match b64Index c0, b64Index c1, b64Index c2, b64Index c3, b64Decode rest with
      | some i0, some i1, some i2, some i3, some bytes =>
        some ((i0 * 4 + i1 / 16) :: (i1 % 16 * 16 + i2 / 4) :: (i2 % 4 * 64 + i3) :: bytes)
      | _, _, _, _, _ => none
  | _ => none

theorem b64Index_b64Char : ∀ n, n < 64 → b64Index (b64Char n) = some n := by decide

theorem b64Char_ne_pad : ∀ n, n < 64 → (b64Char n == '=') = false := by decide

theorem b64_bytes3 (b0 b1 b2 : Nat) (h0 : b0 < 256) (h1 : b1 < 256) (h2 : b2 < 256) :
    (b0 * 65536 + b1 * 256 + b2) / 262144 % 64 * 4
        + (b0 * 65536 + b1 * 256 + b2) / 4096 % 64 / 16 = b0
    ∧ (b0 * 65536 + b1 * 256 + b2) / 4096 % 64 % 16 * 16
        + (b0 * 65536 + b1 * 256 + b2) / 64 % 64 / 4 = b1
    ∧ (b0 * 65536 + b1 * 256 + b2) / 64 % 64 % 4 * 64
        + (b0 * 65536 + b1 * 256 + b2) % 64 = b2 := by
  omega

theorem b64_bytes2 (b0 b1 : Nat) (h0 : b0 < 256) (h1 : b1 < 256) :
    (b0 * 65536 + b1 * 256) / 64 % 64 % 4 = 0
    ∧ (b0 * 65536 + b1 * 256) / 262144 % 64 * 4
        + (b0 * 65536 + b1 * 256) / 4096 % 64 / 16 = b0
    ∧ (b0 * 65536 + b1 * 256) / 4096 % 64 % 16 * 16
        + (b0 * 65536 + b1 * 256) / 64 % 64 / 4 = b1 := by
  omega

theorem b64_bytes1 (b0 : Nat) (h0 : b0 < 256) :
    b0 * 65536 / 4096 % 64 % 16 = 0
    ∧ b0 * 65536 / 262144 % 64 * 4 + b0 * 65536 / 4096 % 64 / 16 = b0 := by
  omega

/-- Decoding inverts encoding on byte sequences. -/
theorem b64_decode_encode :
    ∀ (bytes : List Nat), (∀ b ∈ bytes, b < 256) →
      b64Decode (b64Encode bytes) = some bytes := by
  intro bytes
  induction bytes using b64Encode.induct with
  | case1 b0 b1 b2 rest ih =>
    intro h
    have h0 : b0 < 256 := h b0 (by simp)
    have h1 : b1 < 256 := h b1 (by simp)
    have h2 : b2 < 256 := h b2 (by simp)
    have hrest : ∀ b ∈ rest, b < 256 := fun b hb => h b (by simp [hb])
    have hdec := ih hrest
    have hm : ∀ k : Nat, (b0 * 65536 + b1 * 256 + b2) / k % 64 < 64 :=
      fun k => Nat.mod_lt _ (by norm_num)
    have hm0 : (b0 * 65536 + b1 * 256 + b2) % 64 < 64 := Nat.mod_lt _ (by norm_num)
    obtain ⟨e0, e1, e2⟩ := b64_bytes3 b0 b1 b2 h0 h1 h2
    simp only [b64Encode, b64Decode, b64Char_ne_pad _ hm0, Bool.and_false, if_false,
      b64Index_b64Char _ (hm 262144), b64Index_b64Char _ (hm 4096),
      b64Index_b64Char _ (hm 64), b64Index_b64Char _ hm0, hdec, e0, e1, e2,
      Bool.false_eq_true]
  | case2 b0 b1 =>
    intro h
    have h0 : b0 < 256 := h b0 (by simp)
    have h1 : b1 < 256 := h b1 (by simp)
    have hm : ∀ k : Nat, (b0 * 65536 + b1 * 256) / k % 64 < 64 :=
      fun k => Nat.mod_lt _ (by norm_num)
    obtain ⟨ez, e0, e1⟩ := b64_bytes2 b0 b1 h0 h1
    simp only [b64Encode, b64Decode, List.isEmpty_nil, beq_self_eq_true, Bool.and_true,
      if_true, b64Char_ne_pad _ (hm 64), b64Index_b64Char _ (hm 262144),
      b64Index_b64Char _ (hm 4096), b64Index_b64Char _ (hm 64), Bool.false_eq_true,
      if_false, ez, e0, e1]
  | case3 b0 =>
    intro h
    have h0 : b0 < 256 := h b0 (by simp)
    have hm : ∀ k : Nat, b0 * 65536 / k % 64 < 64 :=
      fun k => Nat.mod_lt _ (by norm_num)
    obtain ⟨ez, e0⟩ := b64_bytes1 b0 h0
    simp only [b64Encode, b64Decode, List.isEmpty_nil, beq_self_eq_true, Bool.and_true,
      if_true, b64Index_b64Char _ (hm 262144), b64Index_b64Char _ (hm 4096),
      ez, e0]
  | case4 =>
    intro h
    rfl

/-! ### WebSocket tunnel frames
(`server/ws_proxy.rs` downstream pump, `client/proxy/ws.rs` agent side). -/

/-- The `WebSocketProxyData` control frame. -/
structure WsProxyData where
  session_id : Uuid
  frame_type : List Char
  payload : Option (List Char)
  deriving DecidableEq

/-- The server's downstream-to-agent pump on a binary frame
(`ws_proxy.rs`, `Ok(WsMessage::Binary(bytes))` arm): base64-encode and
wrap as a `WebSocketProxyData` with frame type `binary`. -/
def albBinaryFrameToData (sessionId : Uuid) (bytes : List Nat) : WsProxyData where
  session_id := sessionId
  frame_type := ("binary").toList
  payload := some (b64Encode bytes)

/-- A frame queued to the agent's local socket writer
(`client/proxy/ws.rs`, `OutboundToLocal`). -/
inductive OutboundToLocal where
  | text (s : List Char)
  | binary (b : List Nat)
  | ping
  | pong
  | close (code : Option Nat) (reason : Option (List Char))
  deriving DecidableEq

/-- `WebSocketReverseProxy::handle_data_from_server`: what (if anything)
is sent to the local socket for a data frame of the given type. -/
def handleDataFromServer (frameType : List Char) (payload : Option (List Char)) :
    Option OutboundToLocal :=
  if frameType = ("text").toList then payload.map OutboundToLocal.text
  else if frameType = ("binary").toList then
    match payload with
    | some encoded =>
      match b64Decode encoded with
      | some bytes => some (OutboundToLocal.binary bytes)
      | none => none
    | none => none
  else if frameType = ("ping").toList then some OutboundToLocal.ping
  else if frameType = ("pong").toList then some OutboundToLocal.pong
  else none

/-- Claim C9: a downstream binary frame is base64-encoded by the server
and decoded by the agent, so the agent's local socket observes the same
bytes: decode after encode is the identity. -/
theorem ws_binary_roundtrip :
    ∀ (bytes : List Nat), (∀ b ∈ bytes, b < 256) →
      b64Decode (b64Encode bytes) = some bytes
      ∧ ∀ sessionId : Uuid,
          handleDataFromServer (albBinaryFrameToData sessionId bytes).frame_type
              (albBinaryFrameToData sessionId bytes).payload
            = some (OutboundToLocal.binary bytes) := by
  intro bytes h
  have hdec := b64_decode_encode bytes h
  refine ⟨hdec, fun sessionId => ?_⟩
  have hneq : (("binary").toList = ("text").toList) = False := by simp
  simp [handleDataFromServer, albBinaryFrameToData, hdec, hneq]

/-- Witness for C9: the four-byte sequence `[0, 255, 77, 1]` (a full
group plus a padded one) survives the wire round trip bit-identically. -/
theorem ws_binary_roundtrip_witness :
    b64Decode (b64Encode [0, 255, 77, 1]) = some [0, 255, 77, 1] :=
  (ws_binary_roundtrip [0, 255, 77, 1] (by decide)).1

/-- A received close frame of the peer websocket (tungstenite
`CloseFrame`): a close code and a reason string. -/
structure CloseFrameInfo where
  code : Nat
  reason : List Char
  deriving DecidableEq

/-- The `WebSocketProxyClose` control frame. -/
structure WsProxyClose where
  session_id : Uuid
  code : Option Nat
  reason : Option (List Char)
  deriving DecidableEq

/-- The server's downstream pump on `Ok(WsMessage::Close(frame))`
(`ws_proxy.rs`): `frame.map(|f| (None, Some(f.reason))).unwrap_or((None, None))`. -/
def albCloseToAgent (sessionId : Uuid) (frame : Option CloseFrameInfo) : WsProxyClose :=
  let pair := match frame with
    | some f => ((none : Option Nat), some f.reason)
    | none => ((none : Option Nat), (none : Option (List Char)))
  { session_id := sessionId, code := pair.1, reason := pair.2 }

/-- The agent's local-to-server pump on `Ok(WsMessage::Close(frame))`
(`client/proxy/ws.rs`), same translation. -/
def localCloseToServer (sessionId : Uuid) (frame : Option CloseFrameInfo) : WsProxyClose :=
  let pair := match frame with
    | some f => ((none : Option Nat), some f.reason)
    | none => ((none : Option Nat), (none : Option (List Char)))
  { session_id := sessionId, code := pair.1, reason := pair.2 }

/-- Claim C10: on both pumps a received close frame is forwarded as a
`WebSocketProxyClose` whose `code` is always `None`; only the reason
string survives. -/
theorem ws_close_code_discarded :
    ∀ (sessionId : Uuid) (frame : Option CloseFrameInfo),
      (albCloseToAgent sessionId frame).code = none
      ∧ (localCloseToServer sessionId frame).code = none
      ∧ (albCloseToAgent sessionId frame).reason = frame.map CloseFrameInfo.reason
      ∧ (localCloseToServer sessionId frame).reason = frame.map CloseFrameInfo.reason := by
  intro sessionId frame
  cases frame with
  | none => exact ⟨rfl, rfl, rfl, rfl⟩
  | some f => exact ⟨rfl, rfl, rfl, rfl⟩

/-! ### ARN pattern matching (`src/mesh/src/server/auth.rs`) -/

/-- Modelled from the spec: ARN glob semantics — literal characters match
themselves, each `*` matches any (possibly empty) substring, patterns are
anchored at both ends.  This is the specification-side definition that
`matches_arn_pattern` is compared against. -/
def globMatch : List Char → List Char → Bool
  | [], arn => arn.isEmpty
  | p :: pr, arn =>
    if p = '*' then arn.tails.any (fun suffix => globMatch pr suffix)
    else
      match arn with
      | [] => false
      | a :: ar => p == a && globMatch pr ar

theorem globMatch_star_iff (pr arn : List Char) :
    globMatch ('*' :: pr) arn = true ↔ ∃ t, t <:+ arn ∧ globMatch pr t = true := by
  have hunfold : globMatch ('*' :: pr) arn = arn.tails.any (fun s => globMatch pr s) := by
    simp [globMatch]
  rw [hunfold, List.any_eq_true]
  constructor
  · rintro ⟨t, ht, hg⟩
    exact ⟨t, (List.mem_tails _ _).1 ht, hg⟩
  · rintro ⟨t, ht, hg⟩
    exact ⟨t, (List.mem_tails _ _).2 ht, hg⟩

theorem globMatch_star_all (arn : List Char) : globMatch ['*'] arn = true :=
  (globMatch_star_iff [] arn).2 ⟨[], List.nil_suffix, rfl⟩

theorem globMatch_star_of (pr arn : List Char) (h : globMatch pr arn = true) :
    globMatch ('*' :: pr) arn = true :=
  (globMatch_star_iff pr arn).2 ⟨arn, List.suffix_refl arn, h⟩

theorem globMatch_star_suffix (pr s arn : List Char) (hs : s <:+ arn)
    (h : globMatch pr s = true) : globMatch ('*' :: pr) arn = true :=
  (globMatch_star_iff pr arn).2 ⟨s, hs, h⟩

theorem globMatch_lit_append (p q s : List Char) (hp : '*' ∉ p) :
    globMatch (p ++ q) (p ++ s) = globMatch q s := by
  induction p with
  | nil => rfl
  | cons c p2 ih =>
    have hc : c ≠ '*' := fun he => hp (he ▸ List.mem_cons_self _ _)
    have hp2 : '*' ∉ p2 := fun hm => hp (List.mem_cons_of_mem _ hm)
    simp only [List.cons_append, globMatch, if_neg hc, beq_self_eq_true, Bool.true_and]
    exact ih hp2

theorem globMatch_self (p : List Char) (hp : '*' ∉ p) : globMatch p p = true := by
  have h := globMatch_lit_append p [] [] hp
  simpa using h

/-- `str::find` for a literal needle: index of the first occurrence. -/
def findSub (needle : List Char) : List Char → Option Nat
  | [] => if needle.isEmpty then some 0 else none
  | x :: t => if needle.isPrefixOf (x :: t) then some 0 else (findSub needle t).map (· + 1)

theorem findSub_decomp (needle : List Char) :
    ∀ (h : List Char) (i : Nat), findSub needle h = some i →
      h = h.take i ++ needle ++ h.drop (i + needle.length) := by
  intro h
  induction h with
  | nil =>
    intro i hi
    by_cases hn : needle.isEmpty
    · have hnil : needle = [] := by simpa using hn
      subst hnil
      simp
    · simp only [findSub, if_neg hn] at hi
      cases hi
  | cons x t ih =>
    intro i hi
    by_cases hpre : needle.isPrefixOf (x :: t)
    · simp only [findSub, if_pos hpre, Option.some.injEq] at hi
      subst hi
      obtain ⟨u, hu⟩ := List.isPrefixOf_iff_prefix.1 hpre
      simp only [List.take_zero, List.nil_append, Nat.zero_add]
      rw [← hu, List.drop_left]
    · simp only [findSub, if_neg hpre] at hi
      rcases hmap : findSub needle t with _ | j
      · rw [hmap] at hi
        exact Option.noConfusion hi
      · rw [hmap] at hi
        have hi2 : j + 1 = i := by simpa using hi
        subst hi2
        have harith : j + 1 + needle.length = (j + needle.length) + 1 := by omega
        rw [harith]
        simp only [List.take_succ_cons, List.drop_succ_cons, List.cons_append]
        rw [← ih j hmap]

theorem findSub_of_starts (needle h : List Char) (hp : needle.isPrefixOf h = true) :
    findSub needle h = some 0 := by
  cases h with
  | nil =>
    have hnil : needle = [] := by
      cases needle with
      | nil => rfl
      | cons a t => simp [List.isPrefixOf] at hp
    subst hnil
    rfl
  | cons x t => simp [findSub, hp]

/-- `str::split` on a separator character. -/
def splitOnChar (c : Char) : List Char → List (List Char)
  | [] => [[]]
  | x :: t =>
    if x = c then [] :: splitOnChar c t
    else
      match splitOnChar c t with
      | [] => [[x]]
      | h :: r => (x :: h) :: r

theorem splitOnChar_ne_nil (c : Char) (s : List Char) : splitOnChar c s ≠ [] := by
  cases s with
  | nil => simp [splitOnChar]
  | cons x t =>
    by_cases hx : x = c
    · simp [splitOnChar, hx]
    · simp only [splitOnChar, if_neg hx]
      rcases hs : splitOnChar c t with _ | ⟨h, r⟩ <;> simp

theorem splitOnChar_not_mem (c : Char) (s : List Char) :
    ∀ q ∈ splitOnChar c s, c ∉ q := by
  induction s with
  | nil =>
    intro q hq
    simp only [splitOnChar, List.mem_singleton] at hq
    subst hq
    simp
  | cons x t ih =>
    intro q hq
    by_cases hx : x = c
    · simp only [splitOnChar, if_pos hx, List.mem_cons] at hq
      rcases hq with hq | hq
      · subst hq
        simp
      · exact ih q hq
    · simp only [splitOnChar, if_neg hx] at hq
      rcases hs : splitOnChar c t with _ | ⟨h, r⟩
      · rw [hs] at hq
        simp only [List.mem_singleton] at hq
        subst hq
        intro hc
        rcases List.mem_singleton.1 hc with hc2
        exact hx hc2.symm
      · rw [hs] at hq
        rcases List.mem_cons.1 hq with hq | hq
        · subst hq
          intro hc
          rcases List.mem_cons.1 hc with hc | hc
          · exact hx hc.symm
          · exact ih h (hs ▸ List.mem_cons_self _ _) hc
        · exact ih q (hs ▸ List.mem_cons_of_mem _ hq)

/-- `Vec::join`-style interleaving of a separator character, inverse of
`splitOnChar` (proof-side companion of the split). -/
def interChar (c : Char) : List (List Char) → List Char
  | [] => []
  | [p] => p
  | p :: rest => p ++ c :: interChar c rest

theorem interChar_cons2 (c : Char) (p q : List Char) (r : List (List Char)) :
    interChar c (p :: q :: r) = p ++ c :: interChar c (q :: r) := rfl

theorem interChar_splitOnChar (c : Char) (s : List Char) :
    interChar c (splitOnChar c s) = s := by
  induction s with
  | nil => rfl
  | cons x t ih =>
    by_cases hx : x = c
    · rw [hx]
      rcases hs : splitOnChar c t with _ | ⟨h, r⟩
      · exact absurd hs (splitOnChar_ne_nil c t)
      · have hstep : splitOnChar c (c :: t) = [] :: h :: r := by
          simp [splitOnChar, hs]
        rw [hs] at ih
        rw [hstep, interChar_cons2, ih]
        rfl
    · rcases hs : splitOnChar c t with _ | ⟨h, r⟩
      · exact absurd hs (splitOnChar_ne_nil c t)
      · have hstep : splitOnChar c (x :: t) = (x :: h) :: r := by
          simp [splitOnChar, hx, hs]
        rw [hs] at ih
        rw [hstep]
        cases r with
        | nil =>
          simp only [interChar] at ih ⊢
          rw [ih]
        | cons r0 rs =>
          rw [interChar_cons2] at ih
          rw [interChar_cons2, List.cons_append, ih]

theorem getLast?_cons_of_ne {α : Type} (a : α) (l : List α) (h : l ≠ []) :
    (a :: l).getLast? = l.getLast? := by
  cases l with
  | nil => exact absurd rfl h
  | cons b t => simp [List.getLast?_cons_cons]

theorem mem_of_getLast?_eq {α : Type} {l : List α} {a : α} (h : l.getLast? = some a) :
    a ∈ l := by
  induction l with
  | nil => cases h
  | cons b t ih =>
    cases t with
    | nil =>
      simp only [List.getLast?_singleton, Option.some.injEq] at h
      subst h
      exact List.mem_singleton_self _
    | cons c r =>
      rw [List.getLast?_cons_cons] at h
      exact List.mem_cons_of_mem _ (ih h)

/-- The loop of `DefaultAuthService::matches_arn_pattern` over the
`*`-separated parts: `isFirst` is true exactly at loop index 0, empty
parts are skipped, the first part must sit at position 0, and every later
part is consumed at its first occurrence. Returns the remaining ARN
suffix (`arn_remaining`) on success. -/
def matchLoop : List (List Char) → Bool → List Char → Option (List Char)
  | [], _, arn => some arn
  | part :: rest, isFirst, arn =>
    if part.isEmpty then matchLoop rest false arn
    else if isFirst && !(part.isPrefixOf arn) then none
    else
      match findSub part arn with
      | some pos =>
        if isFirst && (pos != 0) then none
        else matchLoop rest false (arn.drop (pos + part.length))
      | none => none

/-- `DefaultAuthService::matches_arn_pattern`. -/
def matchesArnPattern (arn pattern : List Char) : Bool :=
  if pattern = ['*'] then true
  else if !(pattern.contains '*') then arn == pattern
  else
    let parts := splitOnChar '*' pattern
    if parts.isEmpty then false
    else
      match matchLoop parts true arn with
      | some remaining => (pattern.getLast? == some '*') || remaining.isEmpty
      | none => false

/-- `DefaultAuthService::is_role_allowed`. -/
def isRoleAllowed (allowedRolePatterns : List (List Char)) (arn : List Char) : Bool :=
  if allowedRolePatterns.isEmpty || allowedRolePatterns.contains (['*']) then true
  else allowedRolePatterns.any (fun pattern => matchesArnPattern arn pattern)

theorem matchLoop_false_sound :
    ∀ (parts : List (List Char)), (∀ q ∈ parts, '*' ∉ q) →
      ∀ (arn remaining : List Char),
      matchLoop parts false arn = some remaining →
      (remaining = [] → globMatch ('*' :: interChar '*' parts) arn = true)
      ∧ ((interChar '*' parts).getLast? = some '*' →
          globMatch ('*' :: interChar '*' parts) arn = true) := by
  intro parts
  induction parts with
  | nil =>
    intro hstar arn remaining hrun
    have harn : arn = remaining := by simpa [matchLoop] using hrun
    constructor
    · intro hre
      rw [harn, hre]
      exact globMatch_star_all []
    · intro hlast
      exact absurd hlast (by simp [interChar])
  | cons part rest ih =>
    intro hstar arn remaining hrun
    have hstarRest : ∀ q ∈ rest, '*' ∉ q := fun q hq => hstar q (List.mem_cons_of_mem _ hq)
    have hstarPart : '*' ∉ part := hstar part (List.mem_cons_self _ _)
    simp only [matchLoop] at hrun
    by_cases hpe : part.isEmpty
    · rw [if_pos hpe] at hrun
      have hpnil : part = [] := by simpa using hpe
      subst hpnil
      cases rest with
      | nil =>
        have harn : arn = remaining := by simpa [matchLoop] using hrun
        constructor
        · intro hre
          rw [harn, hre]
          exact globMatch_star_all []
        · intro hlast
          exact absurd hlast (by simp [interChar])
      | cons q r =>
        have hI := ih hstarRest arn remaining hrun
        constructor
        · intro hre
          rw [interChar_cons2]
          simp only [List.nil_append]
          exact globMatch_star_of _ _ (hI.1 hre)
        · intro hlast
          rw [interChar_cons2] at hlast ⊢
          simp only [List.nil_append] at hlast ⊢
          by_cases hqr : interChar '*' (q :: r) = []
          · rw [hqr]
            exact globMatch_star_of _ _ (globMatch_star_all arn)
          · have hlast2 : (interChar '*' (q :: r)).getLast? = some '*' := by
              rwa [getLast?_cons_of_ne _ _ hqr] at hlast
            exact globMatch_star_of _ _ (hI.2 hlast2)
    · rw [if_neg hpe, if_neg (by simp)] at hrun
      rcases hfind : findSub part arn with _ | pos
      · rw [hfind] at hrun
        exact Option.noConfusion hrun
      · rw [hfind] at hrun
        have hrun2 : matchLoop rest false (arn.drop (pos + part.length)) = some remaining := hrun
        obtain ⟨A, B, hAB, hB⟩ : ∃ A B, arn = A ++ part ++ B
            ∧ arn.drop (pos + part.length) = B :=
          ⟨arn.take pos, arn.drop (pos + part.length), findSub_decomp part arn pos hfind, rfl⟩
        rw [hB] at hrun2
        have hsfx : part ++ B <:+ arn := ⟨A, by rw [← List.append_assoc, ← hAB]⟩
        cases rest with
        | nil =>
          have hrem : B = remaining := by simpa [matchLoop] using hrun2
          constructor
          · intro hre
            have hB2 : B = [] := hrem.trans hre
            show globMatch ('*' :: part) arn = true
            refine globMatch_star_suffix part (part ++ B) arn hsfx ?_
            rw [hB2, List.append_nil]
            exact globMatch_self part hstarPart
          · intro hlast
            have hmem : '*' ∈ part := mem_of_getLast?_eq (by simpa [interChar] using hlast)
            exact absurd hmem hstarPart
        | cons q r =>
          have hI := ih hstarRest B remaining hrun2
          constructor
          · intro hre
            rw [interChar_cons2]
            refine globMatch_star_suffix _ (part ++ B) arn hsfx ?_
            rw [globMatch_lit_append part _ _ hstarPart]
            exact hI.1 hre
          · intro hlast
            rw [interChar_cons2] at hlast ⊢
            have hlast1 : ('*' :: interChar '*' (q :: r)).getLast? = some '*' := by
              rwa [List.getLast?_append_cons] at hlast
            refine globMatch_star_suffix _ (part ++ B) arn hsfx ?_
            rw [globMatch_lit_append part _ _ hstarPart]
            by_cases hqr : interChar '*' (q :: r) = []
            · rw [hqr]
              exact globMatch_star_all B
            · exact hI.2 (by rwa [getLast?_cons_of_ne _ _ hqr] at hlast1)

theorem matchLoop_true_sound :
    ∀ (parts : List (List Char)), (∀ q ∈ parts, '*' ∉ q) →
      ∀ (arn remaining : List Char),
      matchLoop parts true arn = some remaining →
      (remaining = [] → globMatch (interChar '*' parts) arn = true)
      ∧ ((interChar '*' parts).getLast? = some '*' →
          globMatch (interChar '*' parts) arn = true) := by
  intro parts hstar arn remaining hrun
  cases parts with
  | nil =>
    have harn : arn = remaining := by simpa [matchLoop] using hrun
    constructor
    · intro hre
      rw [harn, hre]
      rfl
    · intro hlast
      exact absurd hlast (by simp [interChar])
  | cons part rest =>
    have hstarRest : ∀ q ∈ rest, '*' ∉ q := fun q hq => hstar q (List.mem_cons_of_mem _ hq)
    have hstarPart : '*' ∉ part := hstar part (List.mem_cons_self _ _)
    simp only [matchLoop] at hrun
    by_cases hpe : part.isEmpty
    · rw [if_pos hpe] at hrun
      have hpnil : part = [] := by simpa using hpe
      subst hpnil
      cases rest with
      | nil =>
        have harn : arn = remaining := by simpa [matchLoop] using hrun
        constructor
        · intro hre
          rw [harn, hre]
          rfl
        · intro hlast
          exact absurd hlast (by simp [interChar])
      | cons q r =>
        have hI := matchLoop_false_sound (q :: r) hstarRest arn remaining hrun
        constructor
        · intro hre
          rw [interChar_cons2]
          simp only [List.nil_append]
          exact hI.1 hre
        · intro hlast
          rw [interChar_cons2] at hlast ⊢
          simp only [List.nil_append] at hlast ⊢
          by_cases hqr : interChar '*' (q :: r) = []
          · rw [hqr]
            exact globMatch_star_all arn
          · exact hI.2 (by rwa [getLast?_cons_of_ne _ _ hqr] at hlast)
    · rw [if_neg hpe] at hrun
      by_cases hpre : part.isPrefixOf arn
      · rw [if_neg (by simp [hpre])] at hrun
        rw [findSub_of_starts part arn hpre] at hrun
        have hrun2 : matchLoop rest false (arn.drop (0 + part.length)) = some remaining := hrun
        obtain ⟨B, hABarn, hB⟩ : ∃ B, arn = part ++ B
            ∧ arn.drop (0 + part.length) = B := by
          obtain ⟨u, hu⟩ := List.isPrefixOf_iff_prefix.1 hpre
          refine ⟨u, hu.symm, ?_⟩
          rw [← hu]
          simp [List.drop_left]
        rw [hB] at hrun2
        cases rest with
        | nil =>
          have hrem : B = remaining := by simpa [matchLoop] using hrun2
          constructor
          · intro hre
            have hB2 : B = [] := hrem.trans hre
            show globMatch part arn = true
            rw [hABarn, hB2, List.append_nil]
            exact globMatch_self part hstarPart
          · intro hlast
            have hmem : '*' ∈ part := mem_of_getLast?_eq (by simpa [interChar] using hlast)
            exact absurd hmem hstarPart
        | cons q r =>
          have hI := matchLoop_false_sound (q :: r) hstarRest B remaining hrun2
          constructor
          · intro hre
            rw [interChar_cons2, hABarn, globMatch_lit_append part _ _ hstarPart]
            exact hI.1 hre
          · intro hlast
            rw [interChar_cons2] at hlast ⊢
            have hlast1 : ('*' :: interChar '*' (q :: r)).getLast? = some '*' := by
              rwa [List.getLast?_append_cons] at hlast
            rw [hABarn, globMatch_lit_append part _ _ hstarPart]
            by_cases hqr : interChar '*' (q :: r) = []
            · rw [hqr]
              exact globMatch_star_all B
            · exact hI.2 (by rwa [getLast?_cons_of_ne _ _ hqr] at hlast1)
      · rw [if_pos (by simp [Bool.not_eq_true _ ▸ hpre])] at hrun
        exact Option.noConfusion hrun

theorem matchesArnPattern_glob_sound (arn pattern : List Char)
    (h : matchesArnPattern arn pattern = true) : globMatch pattern arn = true := by
  by_cases hps : pattern = ['*']
  · subst hps
    exact globMatch_star_all arn
  · rw [matchesArnPattern, if_neg hps] at h
    by_cases hcont : pattern.contains '*'
    · have hmem : '*' ∈ pattern := by simpa using hcont
      rw [if_neg (by simp [hmem])] at h
      have hne := splitOnChar_ne_nil '*' pattern
      rw [if_neg (by simpa [List.isEmpty_iff] using hne)] at h
      rcases hrun : matchLoop (splitOnChar '*' pattern) true arn with _ | remaining
      · rw [hrun] at h
        exact absurd h (by simp)
      · rw [hrun] at h
        have hI := matchLoop_true_sound (splitOnChar '*' pattern)
          (splitOnChar_not_mem '*' pattern) arn remaining hrun
        have hpat := interChar_splitOnChar '*' pattern
        have h2 : pattern.getLast? = some '*' ∨ remaining = [] := by
          simpa using h
        rcases h2 with h2 | h2
        · have hg := hI.2 (by rwa [hpat])
          rwa [hpat] at hg
        · have hg := hI.1 h2
          rwa [hpat] at hg
    · have hnm : '*' ∉ pattern := by simpa using hcont
      rw [if_pos (by simp [hnm])] at h
      have harn : arn = pattern := by simpa using h
      subst harn
      exact globMatch_self arn hnm

/-- Counterexample to C2 as stated: the ARN `aa` is in the language of
the pattern `*a` (the `*` matches the first `a`), but
`matches_arn_pattern` rejects it — the last literal part is consumed at
its leftmost occurrence without backtracking, leaving a nonempty
remainder. -/
theorem matches_arn_pattern_incomplete :
    matchesArnPattern (("aa").toList) (("*a").toList) = false
    ∧ globMatch (("*a").toList) (("aa").toList) = true := by decide

/-- Claim C2 (amended): `matches_arn_pattern` is sound for ARN glob
semantics — whenever it returns true the ARN is in the language denoted
by the pattern (literals match themselves, each `*` matches any possibly
empty substring, anchored at both ends) — and it decides star-free
patterns and the bare `*` pattern exactly; but it is not complete (see
the counterexample).  `is_role_allowed` with an empty allow-list allows
every ARN. -/
theorem matches_arn_pattern_sound :
    (∀ arn pattern : List Char,
      matchesArnPattern arn pattern = true → globMatch pattern arn = true)
    ∧ (∀ arn : List Char, matchesArnPattern arn (("*").toList) = true)
    ∧ (∀ arn pattern : List Char, pattern.contains '*' = false →
        (matchesArnPattern arn pattern = true ↔ arn = pattern))
    ∧ (∀ arn : List Char, isRoleAllowed [] arn = true) := by
  refine ⟨matchesArnPattern_glob_sound, ?_, ?_, ?_⟩
  · intro arn
    simp [matchesArnPattern]
  · intro arn pattern hc
    have hps : pattern ≠ ['*'] := by
      intro he
      subst he
      exact absurd hc (by decide)
    have hnm : '*' ∉ pattern := by simpa using hc
    rw [matchesArnPattern, if_neg hps, if_pos (by simp [hnm])]
    exact beq_iff_eq
  · intro arn
    rfl

/-- Witness for C2: the sound direction applied at `abc` matching `a*c`,
and the star-free exact case applied at `abc`. -/
theorem matches_arn_pattern_sound_witness :
    globMatch (("a*c").toList) (("abc").toList) = true
    ∧ matchesArnPattern (("abc").toList) (("abc").toList) = true := by
  constructor
  · exact matches_arn_pattern_sound.1 (("abc").toList) (("a*c").toList) (by decide)
  · exact (matches_arn_pattern_sound.2.2.1 (("abc").toList) (("abc").toList) (by decide)).2 rfl

end Mesh
